import Mathlib

/-!
Verification of the image recoloring repository (src/bitmap_converter.py and
src/streamlit_app.py) against its design specification.

Pixels are modelled the way the Python code receives them from PIL: either a
bare integer (grayscale) or a tuple of channel values.  The Python code
computes `brightness` as a double-precision quotient and truncates channel
products with `int(...)`.  The `transform_color` embeddings perform that
truncation in exact integer arithmetic (`t * s / d` with natural floor
division); `pyChannel` additionally models one output channel at the binary64
level (53-bit round-to-nearest, ties to even), and `pyChannel_bracket` proves
how the two relate: they agree except that the double evaluation can come out
one below the exact floor precisely when the channel-sum product is an exact
multiple of 765.
-/

namespace ImageRepo

/-- A target color: an RGB triple, one natural number per channel. -/
structure TargetColor where
  r : Nat
  g : Nat
  b : Nat
deriving DecidableEq

/-- A pixel exactly as the Python functions receive it from PIL:
either a bare intensity value (grayscale images) or a tuple of channel
values of arbitrary length. -/
inductive Pixel where
  | int (v : Nat)
  | tuple (cs : List Nat)
deriving DecidableEq

namespace StreamlitApp

/-- Embedding of `transform_color` from src/streamlit_app.py (lines 25-53).
Control flow follows the source: a grayscale 255 and the pure-white tuples are
returned unchanged; a 4-tuple takes the RGBA branch; every other tuple takes the
RGB branch, which unpacks `r, g, b = pixel[:3]` and raises ValueError when the
tuple has fewer than three elements.  `int(target * brightness)` with
`brightness = (r+g+b)/765` is embedded as the exact truncation
`target * (r+g+b) / 765` in natural-number arithmetic; the double-precision
evaluation of the source, modelled bit-faithfully by `pyChannel`, agrees with
this except that it can return one less exactly when `target * (r+g+b)` is a
multiple of 765 (see `pyChannel_bracket` and claim C1). -/
def transform_color (pixel : Pixel) (target : TargetColor) : Except String Pixel :=
  match pixel with
  | .int v =>
      if v = 255 then .ok (.int 255)
      else .ok (.tuple [target.r * v / 255, target.g * v / 255, target.b * v / 255])
  | .tuple [r, g, b, a] =>
      if r = 255 ∧ g = 255 ∧ b = 255 then .ok (.tuple [255, 255, 255, a])
      else
        .ok (.tuple [target.r * (r + g + b) / 765, target.g * (r + g + b) / 765,
          target.b * (r + g + b) / 765, a])
  | .tuple (r :: g :: b :: _) =>
      if r = 255 ∧ g = 255 ∧ b = 255 then .ok (.tuple [255, 255, 255])
      else
        .ok (.tuple [target.r * (r + g + b) / 765, target.g * (r + g + b) / 765,
          target.b * (r + g + b) / 765])
  | .tuple _ => .error "ValueError"

end StreamlitApp

namespace BitmapConverter

/-- Embedding of `transform_color` from src/bitmap_converter.py (lines 13-28).
Unlike the batch variant it has no pure-white special case; a grayscale value is
always scaled, `r, g, b = pixel[:3]` raises ValueError on tuples shorter than
three, and a tuple longer than three keeps `pixel[3]` as its fourth output
channel.  Channel products are truncated in exact integer arithmetic, with the
same one-below deviation of the double-precision source at exact multiples of
765 as the batch variant (see `pyChannel_bracket`). -/
def transform_color (pixel : Pixel) (target : TargetColor) : Except String Pixel :=
  match pixel with
  | .int v =>
      .ok (.tuple [target.r * v / 255, target.g * v / 255, target.b * v / 255])
  | .tuple (r :: g :: b :: a :: _) =>
      .ok (.tuple [target.r * (r + g + b) / 765, target.g * (r + g + b) / 765,
        target.b * (r + g + b) / 765, a])
  | .tuple [r, g, b] =>
      .ok (.tuple [target.r * (r + g + b) / 765, target.g * (r + g + b) / 765,
        target.b * (r + g + b) / 765])
  | .tuple _ => .error "ValueError"

end BitmapConverter

/-- Round a rational to the nearest integer, ties to even — the IEEE 754
default rounding used by Python floats. -/
def roundEven (x : ℚ) : ℤ :=
  if x - ⌊x⌋ < 1/2 then ⌊x⌋
  else if 1/2 < x - ⌊x⌋ then ⌊x⌋ + 1
  else if Even ⌊x⌋ then ⌊x⌋ else ⌊x⌋ + 1

/-- Round a nonnegative rational to the nearest IEEE binary64 value: a 53-bit
significand placed by the binary exponent, round to nearest, ties to even.
Subnormals and overflow do not arise in the value ranges of this program. -/
def fl (q : ℚ) : ℚ :=
  if q = 0 then 0
  else (roundEven (q * 2 ^ ((52 : ℤ) - Int.log 2 q)) : ℚ) * 2 ^ (Int.log 2 q - 52)

/-- The double-precision evaluation of one output color channel,
`int(target_color[i] * brightness)` with `brightness = (r+g+b)/765`
(src/streamlit_app.py lines 39-52, src/bitmap_converter.py lines 19-24): the
brightness quotient is rounded to binary64, its product with the exactly
representable target channel is rounded to binary64, and `int()` truncates —
`Int.floor` here, since the value is nonnegative (`fl_nonneg`). -/
def pyChannel (t s : ℕ) : ℤ := ⌊fl ((t : ℚ) * fl ((s : ℚ) / 765))⌋

namespace StreamlitApp

/-- The inner pixel loop of `process_image` (src/streamlit_app.py lines 70-73)
over one row: each pixel goes through `transform_color` into the fresh output
row; the first exception raised aborts the loop and propagates. -/
def transformRow (target : TargetColor) : List Pixel → Except String (List Pixel)
  | [] => .ok []
  | p :: ps =>
    match transform_color p target with
    | .error e => .error e
    | .ok q =>
      match transformRow target ps with
      | .error e => .error e
      | .ok qs => .ok (q :: qs)

/-- The outer row loop of `process_image` (src/streamlit_app.py lines 69-73):
rows are transformed in order; the first exception propagates. -/
def transformGrid (target : TargetColor) : List (List Pixel) → Except String (List (List Pixel))
  | [] => .ok []
  | row :: rows =>
    match transformRow target row with
    | .error e => .error e
    | .ok row2 =>
      match transformGrid target rows with
      | .error e => .error e
      | .ok rows2 => .ok (row2 :: rows2)

/-- Embedding of the pixel loops and exception handler of `process_image` from
src/streamlit_app.py (lines 55-82): every pixel of the decoded grid is mapped
through `transform_color` into a fresh grid; any exception raised during
per-pixel processing is caught by the `except` block and `None` is returned, so
no partial image ever escapes.  The mode normalization of lines 59-63 happens
before the loop and is not modelled; the grid stands for the already-normalized
image. -/
def process_image (grid : List (List Pixel)) (target : TargetColor) :
    Option (List (List Pixel)) :=
  match transformGrid target grid with
  | .ok g => some g
  | .error _ => none

/-- Embedding of the progress-callback invocations of `process_image`
(src/streamlit_app.py lines 68-77): for each row index `y` below `height` with
`y % 10 == 0`, the callback receives `(y * width * 100) / total_pixels`, in
increasing row order.  The values are the exact rationals the double-precision
code computes. -/
def progressReports (width height : Nat) : List ℚ :=
  ((List.range height).filter (fun y => y % 10 = 0)).map
    (fun y => ((y * width * 100 : Nat) : ℚ) / ((width * height : Nat) : ℚ))

/-- One entry of `st.session_state.processed_images` as written by `main`
(src/streamlit_app.py lines 147-152): the original and transformed images, the
encoded bytes, and the format tag. -/
structure CacheEntry where
  original : List (List Pixel)
  transformed : List (List Pixel)
  bytes : List Nat
  format : String
deriving DecidableEq

/-- The `st.session_state.processed_images` dict, keyed by
`(uploaded_file.name, color)` where `color` is the hex color string. -/
def Cache := String × String → Option CacheEntry

/-- The empty dict, as assigned by `st.session_state.processed_images = {}`. -/
def Cache.empty : Cache := fun _ => none

/-- Dict update, `st.session_state.processed_images[cache_key] = {...}`. -/
def Cache.put (c : Cache) (k : String × String) (e : CacheEntry) : Cache :=
  fun q => if q = k then some e else c q

/-- Embedding of the color-change check of `main` (src/streamlit_app.py lines
100-102): when the picked color differs from the session color, the session
color is updated and the processed-images cache is reset to the empty dict;
otherwise both are kept.  Returns the new (session color, cache) pair. -/
def applyColorChange (sessionColor pickedColor : String) (cache : Cache) :
    String × Cache :=
  if pickedColor ≠ sessionColor then (pickedColor, Cache.empty) else (sessionColor, cache)

/-- The state the batch loop of `main` threads through its iterations: the
processed-images cache, the number of `process_image` invocations so far (a
counting instrumentation of the transform step), and the ordered
`processed_images` list of `(filename, bytes, format)` triples. -/
structure BatchState where
  cache : Cache
  calls : Nat
  processed : List (String × List Nat × String)

/-- Embedding of one iteration of the batch loop of `main`
(src/streamlit_app.py lines 128-176) for the file `name` under hex color
`color`.  First, if `(name, color)` is not in the cache, `process_image` is
invoked (counted in `calls`); `result` stands for the cache entry that this
invocation and the subsequent encoding produce, `none` when `process_image`
returns `None`; only a `some` result is stored.  Second, if the key is now in
the cache, its stored data is appended to the processed list. -/
def batchStep (st : BatchState) (name color : String) (result : Option CacheEntry) :
    BatchState :=
  let key := (name, color)
  let st1 : BatchState :=
    if (st.cache key).isSome then st
    else
      match result with
      | some e => { st with cache := st.cache.put key e, calls := st.calls + 1 }
      | none => { st with calls := st.calls + 1 }
  match st1.cache key with
  | some e => { st1 with processed := st1.processed ++ [(name, e.bytes, e.format)] }
  | none => st1

/-- Embedding of the zip-building loop of `main` (src/streamlit_app.py lines
188-192): each `(filename, bytes)` pair of the processed list becomes, in
order, one archive member named `"transformed_" ++ filename` holding exactly
those bytes. -/
def buildArchive (entries : List (String × List Nat)) : List (String × List Nat) :=
  entries.map (fun e => ("transformed_" ++ e.1, e.2))

end StreamlitApp

end ImageRepo

namespace ImageRepo

/-! Helper lemmas shared by the claim theorems. -/

/-- Rounding to the nearest integer moves a value by at most one half. -/
lemma roundEven_abs_sub (x : ℚ) : |(roundEven x : ℚ) - x| ≤ 1 / 2 := by
  have h0 : (⌊x⌋ : ℚ) ≤ x := Int.floor_le x
  have h1 : x < ⌊x⌋ + 1 := Int.lt_floor_add_one x
  unfold roundEven
  split_ifs with ha hb hc
  all_goals rw [abs_le]
  all_goals constructor
  all_goals push_cast
  all_goals linarith

/-- Relative error of one binary64 rounding: at most one part in 2^53. -/
lemma fl_abs_sub {q : ℚ} (hq : 0 ≤ q) : |fl q - q| ≤ q / 2 ^ 53 := by
  rcases eq_or_lt_of_le hq with h0 | hpos
  · rw [fl, if_pos h0.symm, ← h0]
    norm_num
  · rw [fl, if_neg (ne_of_gt hpos)]
    have hle : ((2 : ℕ) : ℚ) ^ (Int.log 2 q) ≤ q := Int.zpow_log_le_self (by norm_num) hpos
    rw [Nat.cast_ofNat] at hle
    set e := Int.log 2 q with he
    have hpow : (0 : ℚ) < (2 : ℚ) ^ (e - 52) := by positivity
    have hmul : q * (2 : ℚ) ^ ((52 : ℤ) - e) * (2 : ℚ) ^ (e - 52) = q := by
      rw [mul_assoc, ← zpow_add₀ (by norm_num : (2 : ℚ) ≠ 0)]
      norm_num
    have key := roundEven_abs_sub (q * (2 : ℚ) ^ ((52 : ℤ) - e))
    have expand : (roundEven (q * 2 ^ ((52 : ℤ) - e)) : ℚ) * 2 ^ (e - 52) - q =
        ((roundEven (q * 2 ^ ((52 : ℤ) - e)) : ℚ) - q * 2 ^ ((52 : ℤ) - e)) * 2 ^ (e - 52) := by
      rw [sub_mul, hmul]
    rw [expand, abs_mul, abs_of_pos hpow]
    have step : |(roundEven (q * 2 ^ ((52 : ℤ) - e)) : ℚ) - q * 2 ^ ((52 : ℤ) - e)| *
        2 ^ (e - 52) ≤ (1 / 2) * 2 ^ (e - 52) :=
      mul_le_mul_of_nonneg_right key hpow.le
    refine step.trans ?_
    have h2 : (1 / 2 : ℚ) * 2 ^ (e - 52) = (2 : ℚ) ^ (e - 53) := by
      rw [show e - 53 = (e - 52) + (-1) by ring, zpow_add₀ (by norm_num : (2 : ℚ) ≠ 0)]
      norm_num
      ring
    rw [h2]
    have h53 : ((2 : ℚ) ^ (53 : ℕ)) = (2 : ℚ) ^ ((53 : ℤ)) := by
      rw [← zpow_natCast (2 : ℚ) 53]
      norm_num
    rw [le_div_iff₀ (by positivity : (0 : ℚ) < (2 : ℚ) ^ (53 : ℕ)), h53,
      ← zpow_add₀ (by norm_num : (2 : ℚ) ≠ 0)]
    rw [show e - 53 + 53 = e by ring]
    exact hle

/-- Binary64 rounding keeps nonnegative values nonnegative. -/
lemma fl_nonneg {q : ℚ} (hq : 0 ≤ q) : 0 ≤ fl q := by
  have h := abs_le.1 (fl_abs_sub hq)
  have hd : q / 2 ^ 53 ≤ q := by
    apply div_le_self hq
    norm_num
  linarith [h.1]

/-- The doubly rounded channel product stays within 765/2^53 of the exact
product `c * ((s)/765)` for 8-bit inputs. -/
lemma pyChannel_close (c s : ℕ) (hc : c ≤ 255) (hs : s ≤ 765) :
    |fl ((c : ℚ) * fl ((s : ℚ) / 765)) - (c : ℚ) * ((s : ℚ) / 765)| ≤ 765 / 2 ^ 53 := by
  set x : ℚ := (s : ℚ) / 765 with hxdef
  have hx0 : 0 ≤ x := by positivity
  have hx1 : x ≤ 1 := by
    rw [hxdef, div_le_one (by norm_num : (0 : ℚ) < 765)]
    exact_mod_cast hs
  have hcq : (c : ℚ) ≤ 255 := by exact_mod_cast hc
  have hc0 : (0 : ℚ) ≤ (c : ℚ) := Nat.cast_nonneg c
  have h1 := abs_le.1 (fl_abs_sub hx0)
  have hb0 : 0 ≤ fl x := fl_nonneg hx0
  have hp0 : (0 : ℚ) ≤ (c : ℚ) * fl x := by positivity
  have h2 := abs_le.1 (fl_abs_sub hp0)
  have hcx : (c : ℚ) * x ≤ 255 := by nlinarith
  have hx53 : x / 2 ^ 53 ≤ 1 / 2 ^ 53 := by
    apply div_le_div_of_nonneg_right hx1
    norm_num
  have hcb : (c : ℚ) * fl x ≤ 256 := by nlinarith
  have hA : |fl ((c : ℚ) * fl x) - (c : ℚ) * fl x| ≤ 256 / 2 ^ 53 := by
    rw [abs_le]
    have : (c : ℚ) * fl x / 2 ^ 53 ≤ 256 / 2 ^ 53 := by
      apply div_le_div_of_nonneg_right hcb
      norm_num
    constructor <;> linarith
  have hB : |(c : ℚ) * fl x - (c : ℚ) * x| ≤ 255 / 2 ^ 53 := by
    rw [abs_le]
    constructor <;> nlinarith
  have htri := abs_sub_le (fl ((c : ℚ) * fl x)) ((c : ℚ) * fl x) ((c : ℚ) * x)
  linarith

/-- The double-precision truncation versus the exact one: when 765 does not
divide `c * s` the two agree (`pyChannel c s = ⌊c*s/765⌋`); when it does, the
float product can land just under the exact integer, so the result is the
exact quotient or one below it.  Both cases occur in the 8-bit range. -/
lemma pyChannel_bracket (c s : ℕ) (hc : c ≤ 255) (hs : s ≤ 765) :
    (¬ 765 ∣ c * s → pyChannel c s = (c * s / 765 : ℕ)) ∧
    (765 ∣ c * s → pyChannel c s = (c * s / 765 : ℕ) ∨
      pyChannel c s = (c * s / 765 : ℕ) - 1) := by
  unfold pyChannel
  have hclose := abs_le.1 (pyChannel_close c s hc hs)
  set R := fl ((c : ℚ) * fl ((s : ℚ) / 765)) with hR
  have hsplit : 765 * (c * s / 765) + c * s % 765 = c * s := Nat.div_add_mod (c * s) 765
  have hcast : ((c * s : ℕ) : ℚ) =
      765 * ((c * s / 765 : ℕ) : ℚ) + ((c * s % 765 : ℕ) : ℚ) := by
    exact_mod_cast hsplit.symm
  have hX : (c : ℚ) * ((s : ℚ) / 765) =
      ((c * s / 765 : ℕ) : ℚ) + ((c * s % 765 : ℕ) : ℚ) / 765 := by
    rw [mul_div_assoc', ← Nat.cast_mul, hcast]
    ring
  rw [hX] at hclose
  have hdelta : (765 : ℚ) / 2 ^ 53 < 1 / 765 := by norm_num
  constructor
  · intro hnd
    have hm0 : 0 < c * s % 765 := by
      rcases Nat.eq_zero_or_pos (c * s % 765) with h | h
      · exact absurd (Nat.dvd_iff_mod_eq_zero.2 h) hnd
      · exact h
    have hm764 : c * s % 765 ≤ 764 := by
      have := Nat.mod_lt (c * s) (by norm_num : 0 < 765)
      omega
    have hmq1 : (1 : ℚ) / 765 ≤ ((c * s % 765 : ℕ) : ℚ) / 765 := by
      apply div_le_div_of_nonneg_right _ (by norm_num : (0 : ℚ) ≤ 765)
      exact_mod_cast hm0
    have hmq2 : ((c * s % 765 : ℕ) : ℚ) / 765 ≤ 764 / 765 := by
      apply div_le_div_of_nonneg_right _ (by norm_num : (0 : ℚ) ≤ 765)
      exact_mod_cast hm764
    rw [Int.floor_eq_iff]
    constructor
    · rw [Int.cast_natCast]
      linarith [hclose.1, hmq1, hdelta]
    · rw [Int.cast_natCast]
      linarith [hclose.2, hmq2, hdelta]
  · intro hd
    have hm0 : c * s % 765 = 0 := Nat.dvd_iff_mod_eq_zero.1 hd
    rw [hm0] at hclose
    simp only [Nat.cast_zero, zero_div, add_zero] at hclose
    rcases le_or_lt (((c * s / 765 : ℕ) : ℚ)) R with hge | hlt
    · left
      rw [Int.floor_eq_iff]
      constructor
      · rw [Int.cast_natCast]
        linarith
      · rw [Int.cast_natCast]
        linarith [hclose.2, hdelta, (by norm_num : (1 : ℚ) / 765 < 1)]
    · right
      rw [Int.floor_eq_iff]
      constructor
      · rw [Int.cast_sub, Int.cast_natCast, Int.cast_one]
        linarith [hclose.1, hdelta, (by norm_num : (1 : ℚ) / 765 < 1)]
      · rw [Int.cast_sub, Int.cast_natCast, Int.cast_one]
        linarith

/-- Prepending the archive naming prelude to a filename is injective. -/
lemma transformedNameInjective :
    Function.Injective (fun s : String => "transformed_" ++ s) := by
  intro a b hab
  have hd := congrArg String.data hab
  simp only [String.data_append] at hd
  exact String.ext (List.append_cancel_left hd)

/-- If some pixel of a row makes `transform_color` raise, the row loop raises. -/
lemma transformRow_error {t : TargetColor} {row : List Pixel} {p : Pixel} {e : String}
    (hp : p ∈ row) (he : StreamlitApp.transform_color p t = .error e) :
    ∃ e2, StreamlitApp.transformRow t row = .error e2 := by
  induction row with
  | nil => exact absurd hp (List.not_mem_nil p)
  | cons q qs ih =>
    rcases List.mem_cons.1 hp with rfl | hp2
    · exact ⟨e, by simp [StreamlitApp.transformRow, he]⟩
    · cases hq : StreamlitApp.transform_color q t with
      | error e3 => exact ⟨e3, by simp [StreamlitApp.transformRow, hq]⟩
      | ok q2 =>
        obtain ⟨e2, h2⟩ := ih hp2
        exact ⟨e2, by simp [StreamlitApp.transformRow, hq, h2]⟩

/-- If some pixel of the grid makes `transform_color` raise, the grid loop raises. -/
lemma transformGrid_error {t : TargetColor} {grid : List (List Pixel)} {row : List Pixel}
    {p : Pixel} {e : String} (hrow : row ∈ grid) (hp : p ∈ row)
    (he : StreamlitApp.transform_color p t = .error e) :
    ∃ e2, StreamlitApp.transformGrid t grid = .error e2 := by
  induction grid with
  | nil => exact absurd hrow (List.not_mem_nil row)
  | cons r rs ih =>
    rcases List.mem_cons.1 hrow with rfl | hr2
    · obtain ⟨e2, h2⟩ := transformRow_error hp he
      exact ⟨e2, by simp [StreamlitApp.transformGrid, h2]⟩
    · cases hr : StreamlitApp.transformRow t r with
      | error e3 => exact ⟨e3, by simp [StreamlitApp.transformGrid, hr]⟩
      | ok r2 =>
        obtain ⟨e2, h2⟩ := ih hr2
        exact ⟨e2, by simp [StreamlitApp.transformGrid, hr, h2]⟩

/-! Claim C1. -/

/-- Claim C1, refuted as stated: on the claim’s own example, input pixel
(200,100,50) with target (0,255,0), the double-precision evaluation of the
green channel (`pyChannel 255 350`, with 350 = 200+100+50) is 116, as is the
embedded `transform_color` output, whereas the claim asserts
`round(255 * (350/765)) = 117` — the code truncates instead of rounding. -/
theorem C1_counterexample :
    pyChannel 255 350 = 116 ∧
    StreamlitApp.transform_color (.tuple [200, 100, 50]) ⟨0, 255, 0⟩ =
      .ok (.tuple [0, 116, 0]) ∧
    (116 : ℤ) ≠ round ((255 : ℚ) * (((200 + 100 + 50 : ℕ) : ℚ) / 765)) := by
  refine ⟨?_, rfl, by norm_num [round_eq]⟩
  have h := (pyChannel_bracket 255 350 (by norm_num) (by norm_num)).1 (by decide)
  rw [h]
  norm_num

/-- Claim C1 as amended: the program truncates instead of rounding, and it does
so in double precision.  For every non-white, non-grayscale 8-bit pixel and
every target color, `transform_color` (in both source files) returns the exact
truncations `⌊channel * (r+g+b) / 765⌋`, and the double-precision evaluation
of each channel (`pyChannel`) equals that exact truncation whenever 765 does
not divide `channel * (r+g+b)`, and equals it or falls one below it when 765
divides it; on the spec’s example (200,100,50) with target (0,255,0) the
output is (0, 116, 0), not round’s (0, 117, 0). -/
theorem C1_double_truncation (r g b : ℕ) (t : TargetColor)
    (hr : r ≤ 255) (hg : g ≤ 255) (hb : b ≤ 255)
    (hw : ¬(r = 255 ∧ g = 255 ∧ b = 255)) :
    StreamlitApp.transform_color (.tuple [r, g, b]) t =
      .ok (.tuple [t.r * (r + g + b) / 765, t.g * (r + g + b) / 765,
        t.b * (r + g + b) / 765]) ∧
    BitmapConverter.transform_color (.tuple [r, g, b]) t =
      .ok (.tuple [t.r * (r + g + b) / 765, t.g * (r + g + b) / 765,
        t.b * (r + g + b) / 765]) ∧
    ∀ c : ℕ, c ≤ 255 →
      (¬ 765 ∣ c * (r + g + b) →
        pyChannel c (r + g + b) = (c * (r + g + b) / 765 : ℕ)) ∧
      (765 ∣ c * (r + g + b) →
        pyChannel c (r + g + b) = (c * (r + g + b) / 765 : ℕ) ∨
        pyChannel c (r + g + b) = (c * (r + g + b) / 765 : ℕ) - 1) := by
  refine ⟨by simp [StreamlitApp.transform_color, hw], rfl, ?_⟩
  intro c hc
  exact pyChannel_bracket c (r + g + b) hc (by omega)

/-- Witness for the amended claim C1 at the spec’s example input. -/
theorem C1_double_truncation_witness :
    ((200 : ℕ) ≤ 255 ∧ (100 : ℕ) ≤ 255 ∧ (50 : ℕ) ≤ 255 ∧
      ¬((200 : ℕ) = 255 ∧ (100 : ℕ) = 255 ∧ (50 : ℕ) = 255)) ∧
    StreamlitApp.transform_color (.tuple [200, 100, 50]) ⟨0, 255, 0⟩ =
      .ok (.tuple [0 * (200 + 100 + 50) / 765, 255 * (200 + 100 + 50) / 765,
        0 * (200 + 100 + 50) / 765]) :=
  ⟨⟨by decide, by decide, by decide, by decide⟩,
    (C1_double_truncation 200 100 50 ⟨0, 255, 0⟩ (by decide) (by decide) (by decide)
      (by decide)).1⟩

/-! Claim C2. -/

/-- Claim C2, refuted as stated: `transform_color` of src/bitmap_converter.py
(one of the two cited implementations) does not map pure white to itself — with
target color (0,0,0) the white pixel (255,255,255) becomes (0,0,0). -/
theorem C2_counterexample :
    BitmapConverter.transform_color (.tuple [255, 255, 255]) ⟨0, 0, 0⟩ =
      .ok (.tuple [0, 0, 0]) ∧
    Pixel.tuple [0, 0, 0] ≠ Pixel.tuple [255, 255, 255] :=
  ⟨rfl, by decide⟩

/-- Claim C2 as amended: for every target color, the batch variant
`transform_color` of src/streamlit_app.py maps every pure-white pixel
(grayscale 255, RGB (255,255,255), RGBA (255,255,255,a)) to itself unchanged,
the alpha channel, if present, also unchanged; the single-image variant in
src/bitmap_converter.py has no such rule. -/
theorem C2_white_preserved (t : TargetColor) (a : ℕ) :
    StreamlitApp.transform_color (.int 255) t = .ok (.int 255) ∧
    StreamlitApp.transform_color (.tuple [255, 255, 255]) t = .ok (.tuple [255, 255, 255]) ∧
    StreamlitApp.transform_color (.tuple [255, 255, 255, a]) t =
      .ok (.tuple [255, 255, 255, a]) := by
  refine ⟨rfl, ?_, ?_⟩ <;> simp [StreamlitApp.transform_color]

/-! Claim C3. -/

/-- Claim C3, confirmed: for every target color and grayscale value v ≠ 255,
`transform_color` (in both source files) returns on the grayscale pixel v the
same RGB triple as on the RGB pixel (v,v,v). -/
theorem C3_grayscale_equivalence (v : ℕ) (t : TargetColor) (hv : v ≠ 255) :
    StreamlitApp.transform_color (.int v) t =
      StreamlitApp.transform_color (.tuple [v, v, v]) t ∧
    BitmapConverter.transform_color (.int v) t =
      BitmapConverter.transform_color (.tuple [v, v, v]) t := by
  have h3 : ∀ c : ℕ, c * (v + v + v) / 765 = c * v / 255 := by
    intro c
    have hv3 : v + v + v = 3 * v := by ring
    rw [hv3, show (765 : ℕ) = 3 * 255 from rfl, ← mul_assoc, mul_comm c 3, mul_assoc,
      Nat.mul_div_mul_left _ _ (by norm_num)]
  constructor
  · simp [StreamlitApp.transform_color, hv, h3]
  · simp [BitmapConverter.transform_color, h3]

/-- Witness for claim C3 at v = 102 and target (0,255,0). -/
theorem C3_grayscale_equivalence_witness :
    (102 : ℕ) ≠ 255 ∧
    (StreamlitApp.transform_color (.int 102) ⟨0, 255, 0⟩ =
      StreamlitApp.transform_color (.tuple [102, 102, 102]) ⟨0, 255, 0⟩ ∧
     BitmapConverter.transform_color (.int 102) ⟨0, 255, 0⟩ =
      BitmapConverter.transform_color (.tuple [102, 102, 102]) ⟨0, 255, 0⟩) :=
  ⟨by decide, C3_grayscale_equivalence 102 ⟨0, 255, 0⟩ (by decide)⟩

/-! Claim C4. -/

/-- Claim C4, confirmed: for every 4-channel (RGBA) input pixel and every
target color, the alpha channel of the pixel returned by `transform_color` (in
both source files) equals the input alpha channel. -/
theorem C4_alpha_passthrough (r g b a : ℕ) (t : TargetColor) :
    (∃ r2 g2 b2, StreamlitApp.transform_color (.tuple [r, g, b, a]) t =
      .ok (.tuple [r2, g2, b2, a])) ∧
    (∃ r2 g2 b2, BitmapConverter.transform_color (.tuple [r, g, b, a]) t =
      .ok (.tuple [r2, g2, b2, a])) := by
  constructor
  · by_cases h : r = 255 ∧ g = 255 ∧ b = 255
    · exact ⟨255, 255, 255, by simp [StreamlitApp.transform_color, h.1, h.2.1, h.2.2]⟩
    · exact ⟨t.r * (r + g + b) / 765, t.g * (r + g + b) / 765, t.b * (r + g + b) / 765,
        by simp [StreamlitApp.transform_color, h]⟩
  · exact ⟨t.r * (r + g + b) / 765, t.g * (r + g + b) / 765, t.b * (r + g + b) / 765, rfl⟩

end ImageRepo

namespace ImageRepo

/-! Claim C5. -/

/-- Claim C5, confirmed: for every ordered list of (filename, bytes) pairs with
unique filenames, the built archive has exactly as many members as there are
pairs, the member names (each the filename prepended with "transformed_") are
pairwise distinct, and the i-th member is the i-th pair's name-prefixed
filename with its exact bytes — so member order matches submission order. -/
theorem C5_archive_completeness (entries : List (String × List ℕ))
    (hu : (entries.map Prod.fst).Nodup) :
    (StreamlitApp.buildArchive entries).length = entries.length ∧
    ((StreamlitApp.buildArchive entries).map Prod.fst).Nodup ∧
    ∀ i : ℕ, (StreamlitApp.buildArchive entries)[i]? =
      (entries[i]?).map (fun e => ("transformed_" ++ e.1, e.2)) := by
  refine ⟨by simp [StreamlitApp.buildArchive], ?_, ?_⟩
  · have hmap : (StreamlitApp.buildArchive entries).map Prod.fst =
        (entries.map Prod.fst).map (fun s => "transformed_" ++ s) := by
      simp [StreamlitApp.buildArchive, List.map_map, Function.comp]
    rw [hmap]
    exact hu.map transformedNameInjective
  · intro i
    simp [StreamlitApp.buildArchive, List.getElem?_map]

/-- Witness for claim C5 on a concrete two-member batch. -/
theorem C5_archive_completeness_witness :
    ((([("a", [1]), ("b", [2])] : List (String × List ℕ)).map Prod.fst).Nodup) ∧
    (StreamlitApp.buildArchive [("a", [1]), ("b", [2])]).length = 2 ∧
    (StreamlitApp.buildArchive [("a", [1]), ("b", [2])])[0]? =
      some ("transformed_" ++ "a", [1]) := by
  have h := C5_archive_completeness [("a", [1]), ("b", [2])] (by decide)
  refine ⟨by decide, ?_, ?_⟩
  · rw [h.1]
    rfl
  · rw [h.2.2 0]
    rfl

/-! Claim C6. -/

/-- Claim C6, confirmed: when the cache key (filename, color) is already
present in the processed-images cache with entry e, one batch-loop iteration
for that file leaves the cache and the `process_image` invocation count
unchanged and appends exactly the stored entry's data to the processed list —
`process_image` is not called again for that key. -/
theorem C6_cache_hit_no_reprocess (st : StreamlitApp.BatchState) (name color : String)
    (e : StreamlitApp.CacheEntry) (result : Option StreamlitApp.CacheEntry)
    (h : st.cache (name, color) = some e) :
    StreamlitApp.batchStep st name color result =
      { st with processed := st.processed ++ [(name, e.bytes, e.format)] } := by
  simp [StreamlitApp.batchStep, h]

/-- Witness for claim C6 on a concrete cached state. -/
theorem C6_cache_hit_no_reprocess_witness :
    (StreamlitApp.Cache.put StreamlitApp.Cache.empty ("a", "#FF0000")
        ⟨[], [], [7], "BMP"⟩) ("a", "#FF0000") = some ⟨[], [], [7], "BMP"⟩ ∧
    StreamlitApp.batchStep
        ⟨StreamlitApp.Cache.put StreamlitApp.Cache.empty ("a", "#FF0000")
          ⟨[], [], [7], "BMP"⟩, 3, []⟩ "a" "#FF0000" none =
      ⟨StreamlitApp.Cache.put StreamlitApp.Cache.empty ("a", "#FF0000")
          ⟨[], [], [7], "BMP"⟩, 3, [] ++ [("a", [7], "BMP")]⟩ :=
  ⟨by simp [StreamlitApp.Cache.put],
   C6_cache_hit_no_reprocess
     ⟨StreamlitApp.Cache.put StreamlitApp.Cache.empty ("a", "#FF0000")
       ⟨[], [], [7], "BMP"⟩, 3, []⟩ "a" "#FF0000" ⟨[], [], [7], "BMP"⟩ none
     (by simp [StreamlitApp.Cache.put])⟩

/-! Claim C7. -/

/-- Claim C7, confirmed: whenever the picked color differs from the session
color, the color-change step resets the cache, and a lookup of any key —
including every previously stored one — returns absent, so no entry stored
under a previous color is ever served. -/
theorem C7_clear_evicts_all (sessionColor pickedColor : String)
    (cache : StreamlitApp.Cache) (h : pickedColor ≠ sessionColor) (k : String × String) :
    (StreamlitApp.applyColorChange sessionColor pickedColor cache).2 k = none := by
  simp [StreamlitApp.applyColorChange, h, StreamlitApp.Cache.empty]

/-- Witness for claim C7 on a concrete color change. -/
theorem C7_clear_evicts_all_witness :
    ("#00FF00" : String) ≠ "#FF0000" ∧
    (StreamlitApp.applyColorChange "#FF0000" "#00FF00" StreamlitApp.Cache.empty).2
      ("a", "#FF0000") = none :=
  ⟨by decide,
   C7_clear_evicts_all "#FF0000" "#00FF00" StreamlitApp.Cache.empty (by decide)
     ("a", "#FF0000")⟩

/-! Claim C8. -/

/-- Claim C8, confirmed: if some pixel of the grid makes per-pixel processing
raise, `process_image` returns `None` — no partial image — and a batch-loop
iteration whose processing produced no image writes no cache entry and appends
nothing to the processed list. -/
theorem C8_failure_yields_nothing (grid : List (List Pixel)) (t : TargetColor)
    (row : List Pixel) (p : Pixel) (e : String) (hrow : row ∈ grid) (hp : p ∈ row)
    (he : StreamlitApp.transform_color p t = .error e) :
    StreamlitApp.process_image grid t = none ∧
    ∀ (st : StreamlitApp.BatchState) (name color : String),
      st.cache (name, color) = none →
        (StreamlitApp.batchStep st name color none).cache = st.cache ∧
        (StreamlitApp.batchStep st name color none).processed = st.processed := by
  constructor
  · obtain ⟨e2, h2⟩ := transformGrid_error hrow hp he
    simp [StreamlitApp.process_image, h2]
  · intro st name color hk
    constructor <;> simp [StreamlitApp.batchStep, hk]

/-- Witness for claim C8: a 1×1 grid whose only pixel is a malformed 2-tuple. -/
theorem C8_failure_yields_nothing_witness :
    Pixel.tuple [1, 2] ∈ [Pixel.tuple [1, 2]] ∧
    StreamlitApp.transform_color (.tuple [1, 2]) ⟨0, 0, 0⟩ = .error "ValueError" ∧
    StreamlitApp.process_image [[.tuple [1, 2]]] ⟨0, 0, 0⟩ = none ∧
    (StreamlitApp.batchStep ⟨StreamlitApp.Cache.empty, 0, []⟩ "a" "#FF0000" none).cache =
      StreamlitApp.Cache.empty ∧
    (StreamlitApp.batchStep ⟨StreamlitApp.Cache.empty, 0, []⟩ "a" "#FF0000" none).processed =
      [] := by
  have h := C8_failure_yields_nothing [[.tuple [1, 2]]] ⟨0, 0, 0⟩ [.tuple [1, 2]]
    (.tuple [1, 2]) "ValueError" (by simp) (by simp) rfl
  exact ⟨by simp, rfl, h.1,
    (h.2 ⟨StreamlitApp.Cache.empty, 0, []⟩ "a" "#FF0000" rfl).1,
    (h.2 ⟨StreamlitApp.Cache.empty, 0, []⟩ "a" "#FF0000" rfl).2⟩

/-! Claim C9. -/

/-- Claim C9, refuted as stated: on a 1×1 image the progress callback receives
exactly the single value 0, so the reported sequence does not end at 100. -/
theorem C9_counterexample :
    StreamlitApp.progressReports 1 1 = [0] ∧
    (StreamlitApp.progressReports 1 1).getLast? ≠ some 100 := by
  have h : StreamlitApp.progressReports 1 1 = [0] := by
    simp [StreamlitApp.progressReports, List.range_succ]
  refine ⟨h, ?_⟩
  rw [h]
  simp

/-- Claim C9 as amended: for every image with positive width and height, the
percentage values `process_image` passes to the progress callback lie in
[0,100] and are monotonically non-decreasing, but every reported value is
strictly below 100 — the sequence never ends at 100. -/
theorem C9_progress_monotone_below_100 (w h : ℕ) (hw : 1 ≤ w) (hh : 1 ≤ h) :
    (∀ q ∈ StreamlitApp.progressReports w h, 0 ≤ q ∧ q < 100) ∧
    (StreamlitApp.progressReports w h).Sorted (· ≤ ·) := by
  have hwh : (0 : ℚ) < ((w * h : ℕ) : ℚ) := by
    have : 0 < w * h := Nat.mul_pos hw hh
    exact_mod_cast this
  constructor
  · intro q hq
    simp only [StreamlitApp.progressReports, List.mem_map, List.mem_filter,
      List.mem_range] at hq
    obtain ⟨y, ⟨hy, _⟩, rfl⟩ := hq
    refine ⟨by positivity, ?_⟩
    rw [div_lt_iff₀ hwh]
    have hyh : (y : ℚ) < (h : ℚ) := by exact_mod_cast hy
    have hw1 : (1 : ℚ) ≤ (w : ℚ) := by exact_mod_cast hw
    have hkey : (w : ℚ) * (y : ℚ) < (w : ℚ) * (h : ℚ) :=
      mul_lt_mul_of_pos_left hyh (by linarith)
    push_cast
    nlinarith
  · rw [List.Sorted, StreamlitApp.progressReports, List.pairwise_map]
    have h1 : ((List.range h).filter (fun y => y % 10 = 0)).Pairwise (· < ·) :=
      (List.pairwise_lt_range h).sublist (List.filter_sublist _)
    refine h1.imp ?_
    intro a b hab
    have hnum : ((a * w * 100 : ℕ) : ℚ) ≤ ((b * w * 100 : ℕ) : ℚ) := by
      exact_mod_cast Nat.mul_le_mul (Nat.mul_le_mul hab.le (le_refl w)) (le_refl 100)
    exact div_le_div_of_nonneg_right hnum hwh.le

/-- Witness for the amended claim C9 on a 10×25 image. -/
theorem C9_progress_monotone_below_100_witness :
    (1 : ℕ) ≤ 10 ∧
    ((∀ q ∈ StreamlitApp.progressReports 10 25, 0 ≤ q ∧ q < 100) ∧
     (StreamlitApp.progressReports 10 25).Sorted (· ≤ ·)) :=
  ⟨by decide, C9_progress_monotone_below_100 10 25 (by decide) (by decide)⟩

/-! Claim C10. -/

/-- Claim C10, confirmed: on every non-white RGB or RGBA pixel and every
target color, `transform_color` of src/bitmap_converter.py and
`transform_color` of src/streamlit_app.py return equal outputs. -/
theorem C10_variants_agree_nonwhite (r g b : ℕ) (t : TargetColor)
    (hw : ¬(r = 255 ∧ g = 255 ∧ b = 255)) :
    BitmapConverter.transform_color (.tuple [r, g, b]) t =
      StreamlitApp.transform_color (.tuple [r, g, b]) t ∧
    ∀ a, BitmapConverter.transform_color (.tuple [r, g, b, a]) t =
      StreamlitApp.transform_color (.tuple [r, g, b, a]) t := by
  constructor
  · simp [BitmapConverter.transform_color, StreamlitApp.transform_color, hw]
  · intro a
    simp [BitmapConverter.transform_color, StreamlitApp.transform_color, hw]

/-- Witness for claim C10 at pixel (10,20,30) and target (255,0,0). -/
theorem C10_variants_agree_nonwhite_witness :
    ¬((10 : ℕ) = 255 ∧ (20 : ℕ) = 255 ∧ (30 : ℕ) = 255) ∧
    BitmapConverter.transform_color (.tuple [10, 20, 30]) ⟨255, 0, 0⟩ =
      StreamlitApp.transform_color (.tuple [10, 20, 30]) ⟨255, 0, 0⟩ :=
  ⟨by decide, (C10_variants_agree_nonwhite 10 20 30 ⟨255, 0, 0⟩ (by decide)).1⟩

end ImageRepo
